import Mathlib

/-!
Shallow embedding of `CustomApps/lyrics-plus/ProviderNetease.js`.

The file models the two pure cores of the provider: the candidate matcher
(`search`) and the lyric parsers (`parseTimestamp`, `breakdownLine`,
`containCredits`, `getKaraoke`, `getSynced`, `getUnsynced`, `getTranslation`).
Network transport and the external `Utils` text helpers are outside `src/`;
the extractors and the matcher are therefore parametrised by the external
helper functions, and concrete stand-ins modelled from the spec are provided
for evaluation at concrete inputs.

JavaScript strings are modelled as Lean `String`; regular-expression scans
are modelled by explicit fuel-indexed scanners (the fuel is the input length,
and every step consumes at least one character, so the fuel never runs out).
-/

/-- Characters treated as whitespace by the JavaScript `\s` class and
`String.prototype.trim` (restricted to the ASCII range actually exercised). -/
def isWsChar (c : Char) : Bool :=
  c = ' ' || c = '\t' || c = '\n' || c = '\r' || c = '\x0b' || c = '\x0c'

/-- Value of a decimal digit string, as JavaScript `parseInt` computes it on
the all-digit capture groups produced by the karaoke marker split. -/
def digitsToNat (l : List Char) : ℕ :=
  l.foldl (fun n c => n * 10 + (c.toNat - ('0').toNat)) 0

/-- JavaScript `String.prototype.trim` (whitespace stripped from both ends). -/
def jsTrim (s : String) : String :=
  String.mk (((s.data.dropWhile isWsChar).reverse.dropWhile isWsChar).reverse)

/-- Split a character list at every newline character (`foldr`-style). -/
def splitOnNL (l : List Char) : List (List Char) :=
  l.foldr
    (fun c acc =>
      if c = '\n' then [] :: acc
      else
        match acc with
        | h :: t => (c :: h) :: t
        | [] => [[c]])
    [[]]

/-- Drop a single carriage return at the end of a line, so that splitting on
newline and stripping the trailing CR together model the `/\r?\n/` split. -/
def dropCR (l : List Char) : List Char :=
  match l.getLast? with
  | some c => if c = '\r' then l.dropLast else l
  | none => l

/-- JavaScript `lyricStr.split(/\r?\n/)`. -/
def splitJsLines (s : String) : List String :=
  (splitOnNL s.data).map (fun l => String.mk (dropCR l))

/-! ## Karaoke tokenizer: `breakdownLine` -/

/-- Match the regular expression `\(\d+,(\d+)\)` at the head of the input.
On success it returns the capture group (the digits after the comma, exactly
as the JavaScript capture) together with the number of characters consumed. -/
def matchMarkerAt (l : List Char) : Option (List Char × ℕ) :=
  match l with
  | [] => none
  | c :: rest =>
    if c = '(' then
      let a := rest.takeWhile Char.isDigit
      if a.isEmpty then none
      else
        match rest.drop a.length with
        | c2 :: rest2 =>
          if c2 = ',' then
            let b := rest2.takeWhile Char.isDigit
            if b.isEmpty then none
            else
              match rest2.drop b.length with
              | c3 :: _ => if c3 = ')' then some (b, a.length + b.length + 3) else none
              | [] => none
          else none
        | [] => none
    else none

/-- Scanner for `text.split(/\(\d+,(\d+)\)/g)`: the accumulator holds the
characters of the current plain piece in reverse.  The fuel bounds the number
of steps; it is instantiated with the input length, which suffices because
every step consumes at least one character. -/
def splitComps (fuel : ℕ) (acc : List Char) (l : List Char) : List String :=
  match fuel with
  | 0 => [String.mk (acc.reverse ++ l)]
  | fuel + 1 =>
    match l with
    | [] => [String.mk acc.reverse]
    | c :: cs =>
      match matchMarkerAt (c :: cs) with
      | some (cap, k) =>
        String.mk acc.reverse :: String.mk cap :: splitComps fuel [] ((c :: cs).drop k)
      | none => splitComps fuel (c :: acc) cs

/-- JavaScript `text.split(/\(\d+,(\d+)\)/g)`: the resulting list alternates
plain pieces with the capture groups of the separators. -/
def splitMarker (s : String) : List String :=
  splitComps s.data.length [] s.data

/-- One karaoke token: the word text (with the synthetic trailing space) and
the parsed capture of the marker that precedes the word span. -/
structure KWord where
  word : String
  time : ℕ
deriving DecidableEq, Repr

/-- Loop of `breakdownLine`: walk the odd/even positions of the split result,
skipping a span that is exactly one space and otherwise emitting the span
with a trailing space and the parsed capture before it. -/
def bdLoop : List String → List KWord
  | _ :: cap :: rest =>
    match rest with
    | piece :: _ =>
      if piece = " " then bdLoop rest
      else ⟨piece ++ " ", digitsToNat cap.data⟩ :: bdLoop rest
    | [] => []
  | _ => []

/-- `breakdownLine` from the source: split on the `(\d+,(\d+))` markers and
collect the word tokens. -/
def breakdownLine (s : String) : List KWord :=
  bdLoop (splitMarker s)

/-! ## Timestamp grammar: `parseTimestamp` -/

/-- Scanner for `line.match(/(\[.*?\])|([^\[\]]+)/g)`: a `[` with a later `]`
yields a bracketed token up to the first `]`; an unmatched `[` or a bare `]`
matches neither alternative and is skipped; any other character starts a
maximal bracket-free run. -/
def tokLine : ℕ → List Char → List String
  | 0, _ => []
  | _ + 1, [] => []
  | fuel + 1, c :: cs =>
    if c = '[' then
      match cs.findIdx? (fun x => x = ']') with
      | some k => String.mk ('[' :: (cs.take k ++ [']'])) :: tokLine fuel (cs.drop (k + 1))
      | none => tokLine fuel cs
    else if c = ']' then tokLine fuel cs
    else
      String.mk (c :: cs.takeWhile (fun x => x != '[' && x != ']')) ::
        tokLine fuel (cs.drop (cs.takeWhile (fun x => x != '[' && x != ']')).length)

/-- Tokenisation of one raw lyric line. -/
def tokenizeLine (s : String) : List String :=
  tokLine s.data.length s.data

/-- JavaScript `slice.endsWith("]")`. -/
def endsRB (s : String) : Bool :=
  match s.data.getLast? with
  | some c => c = ']'
  | none => false

/-- Remove the first occurrence of a character, as one `String.replace` with
an empty replacement does. -/
def removeFirst (c : Char) : List Char → List Char
  | [] => []
  | x :: xs => if x = c then xs else x :: removeFirst c xs

/-- JavaScript `tok.replace("[", "").replace("]", "")`. -/
def stripTime (s : String) : String :=
  String.mk (removeFirst ']' (removeFirst '[' s.data))

/-- JavaScript `matchResult.findIndex(slice => !slice.endsWith("]"))` followed
by `matchResult.splice(textIndex, 1)`: return the first token that does not
end with `]` together with the remaining tokens, or `none` when every token
ends with `]`. -/
def extractText : List String → Option (String × List String)
  | [] => none
  | t :: ts =>
    if endsRB t then
      match extractText ts with
      | some (x, r) => some (x, t :: r)
      | none => none
    else some (t, ts)

/-- Result of `parseTimestamp`: in the source the `time` property is absent
exactly in the single-token branch, while `text` is always a string (possibly
empty). -/
structure PTLine where
  time : Option String
  text : String
deriving DecidableEq, Repr

/-- `parseTimestamp` from the source, parametrised by the external
`Utils.normalize (·, false)` and `Utils.capitalize` collaborators. -/
def parseTimestamp (norm cap : String → String) (line : String) : PTLine :=
  match tokenizeLine line with
  | [] => ⟨none, line⟩
  | [_] => ⟨none, line⟩
  | t0 :: t1 :: rest =>
    match extractText (t0 :: t1 :: rest) with
    | some (txt, r) => ⟨some (stripTime (r.headD "")), cap (norm txt)⟩
    | none => ⟨some (stripTime t0), ""⟩

/-! ## Modelled external collaborators -/

/-- Modelled from the spec: `Utils.normalize` (missing from `src/`) performs
Unicode text normalization; on the already-normalized strings used at the
concrete inputs below it is the identity. -/
def mNormalize (s : String) : String := s

/-- Modelled from the spec: `Utils.capitalize` (missing from `src/`)
upper-cases the first character of the string, e.g. "lyrics" to "Lyrics". -/
def mCapitalize (s : String) : String :=
  match s.data with
  | [] => s
  | c :: cs => String.mk (c.toUpper :: cs)

/-! ## Credit-line filter: `containCredits`

The source builds one case-insensitive regular expression
`^(ALT1|ALT2|...).*(:|：)` from the `creditInfo` table.  The embedding
enumerates, for each alternative, every remainder of the input that is left
after the alternative matches a prefix, and then checks the `.*(:|：)` tail,
i.e. that some remainder still contains a half- or full-width colon. -/

/-- Remainders after the optional pattern `c?` at the head of the input. -/
def optC (c : Char) (l : List Char) : List (List Char) :=
  match l with
  | x :: xs => if x = c then [xs, l] else [l]
  | [] => [l]

/-- Remainders after the optional whitespace pattern `\s?`. -/
def optWs (l : List Char) : List (List Char) :=
  match l with
  | x :: xs => if isWsChar x then [xs, l] else [l]
  | [] => [l]

/-- Remainders after the pattern `\s*`. -/
def wsStar : List Char → List (List Char)
  | [] => [[]]
  | x :: xs => if isWsChar x then (x :: xs) :: wsStar xs else [x :: xs]

/-- Remainders after one mandatory character. -/
def litC (c : Char) (l : List Char) : List (List Char) :=
  match l with
  | x :: xs => if x = c then [xs] else []
  | [] => []

/-- Remainders after a mandatory literal word at the head of the input. -/
def litStr (w : List Char) (l : List Char) : List (List Char) :=
  if w.isPrefixOf l then [l.drop w.length] else []

/-- Remainders after the pattern `.*WORD` (the word may start anywhere). -/
def dotStarLit (w : List Char) (l : List Char) : List (List Char) :=
  l.tails.filterMap (fun t => if w.isPrefixOf t then some (t.drop w.length) else none)

/-- Sequencing of two remainder enumerations. -/
def seqRem (r : List (List Char)) (g : List Char → List (List Char)) :
    List (List Char) :=
  r.flatMap g

/-- Remainders of the alternative `\s?作?\s*X` for `X` in {词, 曲}. -/
def altZuo (last : Char) (l : List Char) : List (List Char) :=
  seqRem (seqRem (seqRem (optWs l) (optC '作')) wsStar) (litC last)

/-- Remainders of the alternative `\s?编\s*曲?`. -/
def altBian (l : List Char) : List (List Char) :=
  seqRem (seqRem (seqRem (optWs l) (litC '编')) wsStar) (optC '曲')

/-- Remainders of the alternative `\s?监\s*制?`. -/
def altJian (l : List Char) : List (List Char) :=
  seqRem (seqRem (seqRem (optWs l) (litC '监')) wsStar) (optC '制')

/-- The `.*WORD` alternatives of the second `creditInfo` row. -/
def dotStarWords : List String :=
  ["编写", "和音", "和声", "合声", "提琴", "录", "工程", "工作室",
   "设计", "剪辑", "制作", "发行", "出品", "后期", "混音", "缩混"]

/-- The bare literal alternatives of the third and fourth `creditInfo` rows
(the fourth row is matched case-insensitively on the lower-cased input). -/
def bareWords : List String :=
  ["原唱", "翻唱", "题字", "文案", "海报", "古筝", "二胡", "钢琴",
   "吉他", "贝斯", "笛子", "鼓", "弦乐",
   "lrc", "publish", "vocal", "guitar", "program", "produce", "write", "mix"]

/-- Remainders after the whole alternation `(ALT1|ALT2|...)` at the start of
the input. -/
def creditAlts (l : List Char) : List (List Char) :=
  altZuo '词' l ++ altZuo '曲' l ++ altBian l ++ altJian l ++
    dotStarWords.flatMap (fun w => dotStarLit w.data l) ++
    bareWords.flatMap (fun w => litStr w.data l)

/-- `containCredits` from the source: the test of the case-insensitive
regular expression `^(credit alternation).*(:|：)`.  Case-insensitivity is
modelled by lower-casing the input (the pattern's ASCII letters are already
lower case; its CJK characters are case-stable). -/
def containCredits (text : String) : Bool :=
  let l := text.data.map Char.toLower
  (creditAlts l).any (fun r => r.any (fun c => c = ':' || c = '：'))

/-! ## Numeric parsing of time tokens -/

/-- Digits-and-fraction core of JavaScript `parseFloat` (exponent forms and
`Infinity`, which no lyric timestamp uses, are not modelled). -/
def jsParseFloatCore (l : List Char) : Option ℚ :=
  let a := l.takeWhile Char.isDigit
  let rest := l.drop a.length
  let b :=
    match rest with
    | c :: cs => if c = '.' then cs.takeWhile Char.isDigit else []
    | [] => []
  if a.isEmpty && b.isEmpty then none
  else some ((digitsToNat a : ℚ) + (digitsToNat b : ℚ) / (10 : ℚ) ^ b.length)

/-- JavaScript `parseFloat`: skip leading whitespace, accept an optional
sign, then read a decimal number; `none` models `NaN`. -/
def jsParseFloat (s : String) : Option ℚ :=
  match s.data.dropWhile isWsChar with
  | [] => none
  | c :: cs =>
    if c = '-' then (jsParseFloatCore cs).map (fun q => -q)
    else if c = '+' then jsParseFloatCore cs
    else jsParseFloatCore (c :: cs)

/-- Split a character list at every occurrence of a separator character, as
JavaScript `String.prototype.split` does with a one-character separator. -/
def splitCharL (c : Char) (l : List Char) : List (List Char) :=
  l.foldr
    (fun x acc =>
      if x = c then [] :: acc
      else
        match acc with
        | h :: t => (x :: h) :: t
        | [] => [[x]])
    [[]]

/-- JavaScript `const [key, value] = time.split(sep)` followed by
`parseFloat` on both halves; a missing second half parses to `NaN`. -/
def pairFloats (t : String) (sep : Char) : Option ℚ × Option ℚ :=
  let parts := (splitCharL sep t.data).map String.mk
  (jsParseFloat (parts.headD ""),
    match parts[1]? with
    | some v => jsParseFloat v
    | none => none)

/-! ## Mode extractors -/

/-- A line of the synced or translation output. -/
structure SyncedLine where
  startTime : ℚ
  text : String
deriving DecidableEq, Repr

/-- A line of the karaoke output. -/
structure KaraokeLine where
  startTime : ℚ
  text : List KWord
deriving DecidableEq, Repr

/-- Raw lyric payload: the three optional text blocks `lrc.lyric`,
`klyric.lyric` and `tlyric.lyric` (each `none` models an absent block or an
absent `lyric` field along the optional-chaining path). -/
structure RawPayload where
  lrc : Option String
  klyric : Option String
  tlyric : Option String

/-- The instrumental-notice sentinel line. -/
def sentinel : String := "纯音乐, 请欣赏"

/-- Per-line body of `getSynced` (and `getTranslation`). -/
def syncedLineOf (norm cap : String → String) (line : String) :
    Option SyncedLine :=
  let p := parseTimestamp norm cap line
  match p.time with
  | none => none
  | some t =>
    if t = "" || p.text = "" then none
    else
      match pairFloats t (':') with
      | (some mn, some sc) =>
        if containCredits p.text then none
        else some ⟨(mn * 60 + sc) * 1000, p.text⟩
      | _ => none

/-- Per-line body of `getKaraoke`. -/
def karaokeLineOf (norm cap : String → String) (line : String) :
    Option KaraokeLine :=
  let p := parseTimestamp norm cap line
  match p.time with
  | none => none
  | some t =>
    if t = "" || p.text = "" then none
    else
      match pairFloats t (',') with
      | (some st, some _du) =>
        if containCredits p.text then none
        else some ⟨st, breakdownLine p.text⟩
      | _ => none

/-- Per-line body of `getUnsynced`. -/
def unsyncedLineOf (norm cap : String → String) (line : String) :
    Option PTLine :=
  let p := parseTimestamp norm cap line
  if p.text = "" || containCredits p.text then none else some p

/-- `getKaraoke` from the source. -/
def getKaraoke (norm cap : String → String) (list : RawPayload) :
    Option (List KaraokeLine) :=
  match list.klyric with
  | none => none
  | some lyricStr =>
    if lyricStr = "" then none
    else
      let lines := (splitJsLines lyricStr).map jsTrim
      let karaoke := lines.filterMap (karaokeLineOf norm cap)
      if karaoke.isEmpty then none else some karaoke

/-- `getSynced` from the source. -/
def getSynced (norm cap : String → String) (list : RawPayload) :
    Option (List SyncedLine) :=
  match list.lrc with
  | none => none
  | some lyricStr =>
    if lyricStr = "" then none
    else
      let lines := (splitJsLines lyricStr).map jsTrim
      let noLyrics := lines.any (fun line => (parseTimestamp norm cap line).text == sentinel)
      let lyrics := lines.filterMap (syncedLineOf norm cap)
      if lyrics.isEmpty || noLyrics then none else some lyrics

/-- `getTranslation` from the source. -/
def getTranslation (norm cap : String → String) (list : RawPayload) :
    Option (List SyncedLine) :=
  match list.tlyric with
  | none => none
  | some lyricStr =>
    if lyricStr = "" then none
    else
      let lines := (splitJsLines lyricStr).map jsTrim
      let translation := lines.filterMap (syncedLineOf norm cap)
      if translation.isEmpty then none else some translation

/-- `getUnsynced` from the source. -/
def getUnsynced (norm cap : String → String) (list : RawPayload) :
    Option (List PTLine) :=
  match list.lrc with
  | none => none
  | some lyricStr =>
    if lyricStr = "" then none
    else
      let lines := (splitJsLines lyricStr).map jsTrim
      let noLyrics := lines.any (fun line => (parseTimestamp norm cap line).text == sentinel)
      let lyrics := lines.filterMap (unsyncedLineOf norm cap)
      if lyrics.isEmpty || noLyrics then none else some lyrics

/-! ## Matcher: `search` -/

/-- One catalog search result (`song.al.name` is flattened to `al`). -/
structure Song where
  name : String
  id : ℕ
  dt : ℤ
  al : String
deriving DecidableEq, Repr

/-- The track metadata passed to `search`. -/
structure Info where
  title : String
  artist : String
  album : String
  duration : ℤ

/-- Acceptance rule of the loop body of `search`: normalized album names are
equal (the query album being simplified first when it contains Han script),
or the durations differ by less than 1000 ms. -/
def accepts (normalize : String → String) (containsHan : String → Bool)
    (toSimplified : String → String) (info : Info) (song : Song) : Bool :=
  let neAlbumName := normalize info.album
  let expectedAlbumName :=
    if containsHan neAlbumName then toSimplified neAlbumName else neAlbumName
  let actualAlbumName := normalize song.al
  actualAlbumName == expectedAlbumName ||
    decide ((info.duration - song.dt).natAbs < 1000)

/-- The candidate loop of `search` from the source: the network fetch is
external, so the candidate list is a parameter; the first accepted candidate
is returned and exhaustion throws the string "Cannot find track" (the
`NotFoundError` of the spec). -/
def search (normalize : String → String) (containsHan : String → Bool)
    (toSimplified : String → String) (info : Info) :
    List Song → Except String Song
  | [] => .error ("Cannot find track")
  | song :: rest =>
    if accepts normalize containsHan toSimplified info song then .ok song
    else search normalize containsHan toSimplified info rest

/-- Modelled from the spec: `Utils.containsHanCharacter` (missing from
`src/`) detects Han-script characters, modelled over the core CJK unified
block. -/
def mContainsHan (s : String) : Bool :=
  s.data.any (fun c => decide (0x4E00 ≤ c.toNat) && decide (c.toNat ≤ 0x9FFF))

/-- Modelled from the spec: `Utils.toSimplifiedChinese` (missing from `src/`)
converts to canonical simplified form; on the already-simplified strings used
at the concrete inputs below it is the identity. -/
def mToSimplified (s : String) : String := s

/-! ## Statement vocabulary for the karaoke format

The round-trip and separator claims quantify over well-formed karaoke
payloads: an interleaving of `(offset,duration)` markers with the spans that
follow them, the spans being words separated by single-space spans. -/

/-- Character sequence of one `(offset,duration)` marker with the given digit
fields. -/
def markerChars (a b : List Char) : List Char :=
  '(' :: (a ++ ',' :: (b ++ [')']))

/-- One `(offset,duration)` marker as a string. -/
def markerString (a b : List Char) : String :=
  String.mk (markerChars a b)

/-- Both digit fields of a marker are non-empty digit runs. -/
def IsDigits (l : List Char) : Prop :=
  l ≠ [] ∧ ∀ c ∈ l, c.isDigit = true

/-- A word span: not the bare single-space separator, and free of `(` so that
no marker can start inside it. -/
def IsWordSpan (w : List Char) : Prop :=
  w ≠ [' '] ∧ ∀ c ∈ w, c ≠ '('

instance (l : List Char) : Decidable (IsDigits l) :=
  inferInstanceAs (Decidable (l ≠ [] ∧ ∀ c ∈ l, c.isDigit = true))

instance (w : List Char) : Decidable (IsWordSpan w) :=
  inferInstanceAs (Decidable (w ≠ [' '] ∧ ∀ c ∈ w, c ≠ '('))

/-- The span sequence of a karaoke line: word spans separated by bare
single-space spans. -/
inductive SpacedWords : List (List Char) → Prop
  | single (w : List Char) : IsWordSpan w → SpacedWords [w]
  | more (w : List Char) (rest : List (List Char)) :
      IsWordSpan w → SpacedWords rest → SpacedWords (w :: [' '] :: rest)

/-- Assemble a karaoke text from (offset digits, duration digits, span)
triples: each span is preceded by its marker. -/
def renderKaraoke (ps : List (List Char × List Char × List Char)) : List Char :=
  ps.flatMap (fun p => markerChars p.1 p.2.1 ++ p.2.2)

/-- Concatenation of a list of strings. -/
def joinStr (l : List String) : String :=
  String.mk (l.flatMap String.data)

/-! ## Lemmas about the karaoke scanner -/

theorem takeWhile_app {α : Type} (p : α → Bool) (a : List α) (x : α) (t : List α)
    (h : ∀ c ∈ a, p c = true) (hx : p x = false) :
    (a ++ x :: t).takeWhile p = a := by
  induction a with
  | nil => simp [List.takeWhile_cons, hx]
  | cons c cs ih =>
    have hc := h c (by simp)
    simp only [List.cons_append, List.takeWhile_cons, hc, if_true]
    rw [ih (fun d hd => h d (by simp [hd]))]

theorem drop_app {α : Type} (a t : List α) : (a ++ t).drop a.length = t := by
  induction a with
  | nil => simp
  | cons c cs ih => simp [ih]

theorem matchMarkerAt_marker (a b tail : List Char) (ha : IsDigits a) (hb : IsDigits b) :
    matchMarkerAt (markerChars a b ++ tail) = some (b, a.length + b.length + 3) := by
  obtain ⟨ha0, had⟩ := ha
  obtain ⟨hb0, hbd⟩ := hb
  have ha1 : a.isEmpty = false := by
    cases a with
    | nil => exact absurd rfl ha0
    | cons x xs => rfl
  have hb1 : b.isEmpty = false := by
    cases b with
    | nil => exact absurd rfl hb0
    | cons x xs => rfl
  have hta : (a ++ ',' :: (b ++ ')' :: tail)).takeWhile Char.isDigit = a :=
    takeWhile_app _ _ _ _ had (by decide)
  have hda : (a ++ ',' :: (b ++ ')' :: tail)).drop a.length = ',' :: (b ++ ')' :: tail) :=
    drop_app a _
  have htb : (b ++ ')' :: tail).takeWhile Char.isDigit = b :=
    takeWhile_app _ _ _ _ hbd (by decide)
  have hdb : (b ++ ')' :: tail).drop b.length = ')' :: tail := drop_app b _
  simp only [markerChars, List.cons_append, List.append_assoc, List.singleton_append,
    List.nil_append, matchMarkerAt]
  simp [hta, hda, htb, hdb, ha1, hb1]

theorem matchMarkerAt_not_paren (c : Char) (cs : List Char) (h : c ≠ '(') :
    matchMarkerAt (c :: cs) = none := by
  simp [matchMarkerAt, h]

theorem splitComps_nil (fuel : ℕ) (acc : List Char) :
    splitComps fuel acc [] = [String.mk acc.reverse] := by
  cases fuel <;> simp [splitComps]

theorem splitComps_marker (a b : List Char) (ha : IsDigits a) (hb : IsDigits b)
    (fuel : ℕ) (hf : 1 ≤ fuel) (acc tail : List Char) :
    splitComps fuel acc (markerChars a b ++ tail) =
      String.mk acc.reverse :: String.mk b :: splitComps (fuel - 1) [] tail := by
  cases fuel with
  | zero => omega
  | succ f =>
    have hm := matchMarkerAt_marker a b tail ha hb
    have hlen : (markerChars a b).length = a.length + b.length + 3 := by
      simp only [markerChars, List.length_cons, List.length_append, List.length_nil]
      omega
    have hdrop : (markerChars a b ++ tail).drop (a.length + b.length + 3) = tail := by
      rw [← hlen]
      exact drop_app _ _
    have hcons : markerChars a b ++ tail =
        '(' :: ((a ++ ',' :: (b ++ [')'])) ++ tail) := by
      simp [markerChars]
    rw [hcons] at hm hdrop ⊢
    simp only [splitComps, hm, hdrop, Nat.succ_sub_one]

theorem splitComps_skip (w : List Char) (hw : ∀ c ∈ w, c ≠ '(') :
    ∀ (fuel : ℕ) (acc tail : List Char), w.length ≤ fuel →
    splitComps fuel acc (w ++ tail) =
      splitComps (fuel - w.length) (w.reverse ++ acc) tail := by
  induction w with
  | nil => intro fuel acc tail _; simp
  | cons c cs ih =>
    intro fuel acc tail hf
    cases fuel with
    | zero => simp at hf
    | succ f =>
      have hc : c ≠ '(' := hw c (by simp)
      have hnone := matchMarkerAt_not_paren c (cs ++ tail) hc
      simp only [List.cons_append, splitComps, hnone]
      rw [ih (fun d hd => hw d (by simp [hd])) f (c :: acc) tail (by simpa using hf)]
      simp [List.append_assoc]

theorem splitComps_no_marker (w : List Char) (hw : ∀ c ∈ w, c ≠ '(')
    (fuel : ℕ) (acc : List Char) (h : w.length ≤ fuel) :
    splitComps fuel acc w = [String.mk (acc.reverse ++ w)] := by
  have h2 := splitComps_skip w hw fuel acc [] h
  rw [List.append_nil] at h2
  rw [h2, splitComps_nil]
  simp

theorem splitComps_render (ps : List (List Char × List Char × List Char)) :
    ∀ (fuel : ℕ) (acc : List Char),
    (∀ p ∈ ps, IsDigits p.1 ∧ IsDigits p.2.1 ∧ ∀ c ∈ p.2.2, c ≠ '(') →
    (renderKaraoke ps).length ≤ fuel →
    splitComps fuel acc (renderKaraoke ps) =
      String.mk acc.reverse :: ps.flatMap (fun p => [String.mk p.2.1, String.mk p.2.2]) := by
  induction ps with
  | nil => intro fuel acc _ _; simp [renderKaraoke, splitComps_nil]
  | cons p ps ih =>
    intro fuel acc hgood hf
    obtain ⟨hpa, hpb, hpw⟩ := hgood p (by simp)
    have hrenderc : renderKaraoke (p :: ps) =
        markerChars p.1 p.2.1 ++ (p.2.2 ++ renderKaraoke ps) := by
      simp [renderKaraoke, List.append_assoc]
    have hmlen : (markerChars p.1 p.2.1).length = p.1.length + p.2.1.length + 3 := by
      simp [markerChars]
      omega
    have hlen : (renderKaraoke (p :: ps)).length =
        (markerChars p.1 p.2.1).length + p.2.2.length + (renderKaraoke ps).length := by
      rw [hrenderc]
      simp [List.length_append]
      omega
    have h1 : 1 ≤ fuel := by omega
    rw [hrenderc, splitComps_marker p.1 p.2.1 hpa hpb fuel h1 acc _]
    rw [splitComps_skip p.2.2 hpw (fuel - 1) [] (renderKaraoke ps) (by omega)]
    rw [ih (fuel - 1 - p.2.2.length) (p.2.2.reverse ++ [])
      (fun q hq => hgood q (by simp [hq])) (by omega)]
    simp

theorem data_mk (l : List Char) : (String.mk l).data = l := rfl

theorem data_append (s t : String) : (s ++ t).data = s.data ++ t.data := rfl

theorem mkString_eq_space (w : List Char) : String.mk w = " " ↔ w = [' '] := by
  constructor
  · intro h
    exact congrArg String.data h
  · intro h
    rw [h]

theorem bdLoop_flat (ps : List (List Char × List Char × List Char)) :
    ∀ p0 : String,
    bdLoop (p0 :: ps.flatMap (fun p => [String.mk p.2.1, String.mk p.2.2])) =
      ps.filterMap (fun p =>
        if String.mk p.2.2 = " " then none
        else some ⟨String.mk p.2.2 ++ " ", digitsToNat p.2.1⟩) := by
  induction ps with
  | nil => intro p0; rfl
  | cons p ps ih =>
    intro p0
    simp only [List.flatMap_cons, List.cons_append, List.nil_append, List.filterMap_cons]
    by_cases hsp : String.mk p.2.2 = " "
    · simp only [bdLoop, hsp, reduceIte]
      exact ih (" ")
    · simp only [bdLoop, hsp, reduceIte]
      rw [ih (String.mk p.2.2)]

theorem join_words (spans : List (List Char)) (hs : SpacedWords spans) :
    (spans.filterMap (fun w =>
        if String.mk w = " " then none else some (String.mk w ++ " "))).flatMap String.data =
      spans.flatten ++ [' '] := by
  induction hs with
  | single w hw =>
    have hne : String.mk w ≠ " " := fun h => hw.1 ((mkString_eq_space w).mp h)
    simp [hne, data_append, data_mk]
  | more w rest hw _ ih =>
    have hne : String.mk w ≠ " " := fun h => hw.1 ((mkString_eq_space w).mp h)
    simp [hne, ih, data_append, data_mk, List.append_assoc]

theorem mk_data (s : String) : String.mk s.data = s := rfl

theorem spacedWords_no_paren (spans : List (List Char)) (hs : SpacedWords spans) :
    ∀ w ∈ spans, ∀ c ∈ w, c ≠ '(' := by
  induction hs with
  | single w hw =>
    intro w' hw'
    have : w' = w := by simpa using hw'
    subst this
    exact hw.2
  | more w rest hw _ ih =>
    intro w' hw'
    have : w' = w ∨ w' = [' '] ∨ w' ∈ rest := by simpa using hw'
    rcases this with h | h | h
    · subst h; exact hw.2
    · subst h
      intro c hc
      have : c = ' ' := by simpa using hc
      subst this
      decide
    · exact ih w' h

theorem map_word_filterMap (ps : List (List Char × List Char × List Char)) :
    (ps.filterMap (fun p =>
        if String.mk p.2.2 = " " then none
        else some (⟨String.mk p.2.2 ++ " ", digitsToNat p.2.1⟩ : KWord))).map KWord.word =
      (ps.map (fun p => p.2.2)).filterMap
        (fun w => if String.mk w = " " then none else some (String.mk w ++ " ")) := by
  induction ps with
  | nil => rfl
  | cons p ps ih =>
    simp only [List.filterMap_cons, List.map_cons]
    by_cases hsp : String.mk p.2.2 = " "
    · simp only [hsp, reduceIte]
      exact ih
    · simp only [hsp, reduceIte, List.map_cons]
      rw [ih]

theorem words_of_render (ps : List (List Char × List Char × List Char))
    (hgood : ∀ p ∈ ps, IsDigits p.1 ∧ IsDigits p.2.1 ∧ ∀ c ∈ p.2.2, c ≠ '(') :
    (breakdownLine (String.mk (renderKaraoke ps))).map KWord.word =
      (ps.map (fun p => p.2.2)).filterMap
        (fun w => if String.mk w = " " then none else some (String.mk w ++ " ")) := by
  have h1 : breakdownLine (String.mk (renderKaraoke ps)) =
      bdLoop (splitComps (renderKaraoke ps).length [] (renderKaraoke ps)) := rfl
  rw [h1, splitComps_render ps (renderKaraoke ps).length [] hgood le_rfl,
    bdLoop_flat ps (String.mk (List.reverse []))]
  exact map_word_filterMap ps

/-- Claim C8: for every karaoke-formatted payload — an interleaving of
`(offset,duration)` markers with spans that are words separated by bare
single-space spans — concatenating the `word` fields of `breakdownLine`'s
output in order reconstructs the spoken text of the line (the concatenation
of all spans) up to the synthetic trailing space appended to each word: the
result is exactly the spoken text followed by one trailing space. -/
theorem C8_karaoke_roundtrip (ps : List (List Char × List Char × List Char))
    (hd : ∀ p ∈ ps, IsDigits p.1 ∧ IsDigits p.2.1)
    (hs : SpacedWords (ps.map (fun p => p.2.2))) :
    joinStr ((breakdownLine (String.mk (renderKaraoke ps))).map KWord.word) =
      String.mk ((ps.map (fun p => p.2.2)).flatten) ++ " " := by
  have hnp := spacedWords_no_paren _ hs
  have hgood : ∀ p ∈ ps, IsDigits p.1 ∧ IsDigits p.2.1 ∧ ∀ c ∈ p.2.2, c ≠ '(' := by
    intro p hp
    exact ⟨(hd p hp).1, (hd p hp).2, hnp p.2.2 (List.mem_map_of_mem _ hp)⟩
  rw [words_of_render ps hgood]
  simp only [joinStr]
  rw [join_words (ps.map (fun p => p.2.2)) hs]
  rfl

/-- Claim C8 witness: the payload assembled from the markers and spans of
the spec's example line, with the final word not followed by a marker. -/
theorem C8_karaoke_roundtrip_witness :
    IsDigits ['0'] ∧ IsDigits ['5', '0', '8'] ∧ IsDigits ['1'] ∧
    IsDigits ['1', '5', '1'] ∧
    joinStr ((breakdownLine (String.mk (renderKaraoke
        [(['0'], ['5', '0', '8'], ("Don\x27t").data),
         (['0'], ['1'], [' ']),
         (['0'], ['1', '5', '1'], ("want").data)]))).map KWord.word) =
      String.mk (([(['0'], ['5', '0', '8'], ("Don\x27t").data),
         (['0'], ['1'], [' ']),
         (['0'], ['1', '5', '1'], ("want").data)].map
           (fun p => p.2.2)).flatten) ++ " " :=
  ⟨by decide, by decide, by decide, by decide,
    C8_karaoke_roundtrip _ (by decide)
      (SpacedWords.more _ _ (by decide)
        (SpacedWords.single _ (by decide)))⟩

/-- Claim C10: in `breakdownLine`, only a span that is exactly the
one-character single-space string is skipped; when two timing markers are
adjacent with nothing between them, the empty span after the first marker is
emitted as a token whose word is the single appended trailing space and whose
time is the first marker's captured numeric field. -/
theorem C10_adjacent_markers (a1 b1 a2 b2 : List Char) (w : String)
    (ha1 : IsDigits a1) (hb1 : IsDigits b1) (ha2 : IsDigits a2) (hb2 : IsDigits b2)
    (hw1 : ∀ c ∈ w.data, c ≠ '(') (hw3 : w ≠ " ") :
    breakdownLine (markerString a1 b1 ++ markerString a2 b2 ++ w) =
      [⟨" ", digitsToNat b1⟩, ⟨w ++ " ", digitsToNat b2⟩] := by
  have hdata : (markerString a1 b1 ++ markerString a2 b2 ++ w).data =
      markerChars a1 b1 ++ (markerChars a2 b2 ++ w.data) := by
    simp [markerString, data_append, data_mk, List.append_assoc]
  have hm1 : (markerChars a1 b1).length = a1.length + b1.length + 3 := by
    simp only [markerChars, List.length_cons, List.length_append, List.length_nil]
    omega
  have hm2 : (markerChars a2 b2).length = a2.length + b2.length + 3 := by
    simp only [markerChars, List.length_cons, List.length_append, List.length_nil]
    omega
  have hlen : (markerChars a1 b1 ++ (markerChars a2 b2 ++ w.data)).length =
      (markerChars a1 b1).length + (markerChars a2 b2).length + w.data.length := by
    simp only [List.length_append]
    omega
  show bdLoop (splitComps (markerString a1 b1 ++ markerString a2 b2 ++ w).data.length []
      (markerString a1 b1 ++ markerString a2 b2 ++ w).data) = _
  rw [hdata]
  rw [splitComps_marker a1 b1 ha1 hb1 _ (by omega) [] _]
  rw [splitComps_marker a2 b2 ha2 hb2 _ (by omega) [] _]
  rw [splitComps_no_marker w.data hw1 _ [] (by omega)]
  have hemp : (String.mk ([] : List Char)) ≠ " " := by decide
  have hemps : String.mk ([] : List Char) ++ " " = " " := rfl
  simp only [List.reverse_nil, List.nil_append, mk_data]
  simp [bdLoop, hemp, hw3, data_mk, hemps]

/-- Claim C10 witness: two adjacent markers followed by one word. -/
theorem C10_adjacent_markers_witness :
    IsDigits ['0'] ∧ IsDigits ['1', '0', '0'] ∧ IsDigits ['2', '0', '0'] ∧
    breakdownLine (markerString ['0'] ['1', '0', '0'] ++
        markerString ['0'] ['2', '0', '0'] ++ ("word")) =
      [⟨" ", 100⟩, ⟨("word") ++ " ", 200⟩] :=
  ⟨by decide, by decide, by decide,
    C10_adjacent_markers ['0'] ['1', '0', '0'] ['0'] ['2', '0', '0'] ("word")
      (by decide) (by decide) (by decide) (by decide) (by decide) (by decide)⟩

/-- Claim C4 counterexample: on the spec's example line the tokenizer does
not return the claimed two-token sequence with offsets 0 and 151. -/
theorem C4_counterexample :
    breakdownLine ("(0,508)Don\x27t(0,1) (0,151)want(0,1)") ≠
      [⟨"Don\x27t ", 0⟩, ⟨"want ", 151⟩] := by
  decide

/-- Claim C4 (amended): on the example line the tokenizer returns three
tokens: each emitted time is the captured numeric field of the preceding
marker — the second field (the duration), not the first — the bare
single-space spans are skipped, and the empty span after the final marker is
emitted as a token whose word is the bare appended trailing space. -/
theorem C4_amended_tokens :
    breakdownLine ("(0,508)Don\x27t(0,1) (0,151)want(0,1)") =
      [⟨"Don\x27t ", 508⟩, ⟨"want ", 151⟩, ⟨" ", 1⟩] := by
  decide

/-! ## Lemmas about `parseTimestamp` -/

theorem extractText_cons_pos (t : String) (ts : List String) (h : endsRB t = true) :
    extractText (t :: ts) =
      match extractText ts with
      | some (x, r) => some (x, t :: r)
      | none => none := by
  simp [extractText, h]

theorem extractText_cons_neg (t : String) (ts : List String) (h : endsRB t = false) :
    extractText (t :: ts) = some (t, ts) := by
  simp [extractText, h]

theorem extractText_of_find (l : List String) (x : String)
    (h : l.find? (fun s => !endsRB s) = some x) :
    ∃ r, extractText l = some (x, r) := by
  induction l with
  | nil => simp [List.find?] at h
  | cons t ts ih =>
    by_cases ht : endsRB t = true
    · have hpred : (fun s => !endsRB s) t = false := by simp [ht]
      rw [List.find?_cons_of_neg _ (by simp [ht])] at h
      obtain ⟨r, hr⟩ := ih h
      exact ⟨t :: r, by simp [extractText, ht, hr]⟩
    · have hx : x = t := by
        rw [List.find?_cons_of_pos _ (by simp [ht])] at h
        exact (Option.some_inj.mp h).symm
      exact ⟨ts, by simp [extractText, ht, hx]⟩

/-- Claim C5 counterexample: on the single-token line `[ar:Beyond]` the
parser does not return `ar:Beyond` as the time: it returns no time at all. -/
theorem C5_counterexample :
    (parseTimestamp mNormalize mCapitalize ("[ar:Beyond]")).time ≠ some ("ar:Beyond") := by
  decide

/-- Claim C5 (amended): a line whose tokenisation yields a single token, such
as `[ar:Beyond]`, is treated as unstructured text: the parser returns
`{text: "[ar:Beyond]"}` — the whole raw line, brackets included — with no
time field, for every normalisation and capitalisation collaborator. -/
theorem C5_amended_single_token (norm cap : String → String) :
    parseTimestamp norm cap ("[ar:Beyond]") = ⟨none, "[ar:Beyond]"⟩ := rfl

/-- Claim C9: for every raw line whose tokenisation yields at least two
spans, alternating between bracket-terminated and plain spans, with at least
one plain span present, `parseTimestamp` returns the first bracketed span
with its enclosing brackets stripped as the time, and the first plain span,
normalised then capitalised, as the text. -/
theorem C9_time_and_text (norm cap : String → String) (line tb tn : String)
    (hlen : 2 ≤ (tokenizeLine line).length)
    (halt : (tokenizeLine line).Chain' (fun x y => endsRB x ≠ endsRB y))
    (htn : (tokenizeLine line).find? (fun s => !endsRB s) = some tn)
    (htb : (tokenizeLine line).find? (fun s => endsRB s) = some tb) :
    parseTimestamp norm cap line = ⟨some (stripTime tb), cap (norm tn)⟩ := by
  cases hts : tokenizeLine line with
  | nil => rw [hts] at hlen; simp at hlen
  | cons t0 ts =>
    cases ts with
    | nil => rw [hts] at hlen; simp at hlen
    | cons t1 rest =>
      rw [hts] at halt htn htb
      by_cases h0 : endsRB t0 = true
      · have htb0 : tb = t0 := by
          rw [List.find?_cons_of_pos _ h0] at htb
          exact (Option.some_inj.mp htb).symm
        have htn2 : ((t1 :: rest).find? (fun s => !endsRB s)) = some tn := by
          rwa [List.find?_cons_of_neg _ (by simp [h0])] at htn
        obtain ⟨r, hr⟩ := extractText_of_find _ _ htn2
        simp only [parseTimestamp, hts]
        rw [extractText_cons_pos _ _ h0, hr]
        simp [htb0]
      · have htn0 : tn = t0 := by
          rw [List.find?_cons_of_pos _ (by simp [h0])] at htn
          exact (Option.some_inj.mp htn).symm
        have h1 : endsRB t1 = true := by
          have hne := (List.chain'_cons.mp halt).1
          cases hh : endsRB t1
          · have h0f : endsRB t0 = false := by simpa using h0
            exact absurd (by rw [h0f, hh]) hne
          · rfl
        have htb1 : tb = t1 := by
          rw [List.find?_cons_of_neg _ (by simp [h0]),
            List.find?_cons_of_pos _ h1] at htb
          exact (Option.some_inj.mp htb).symm
        simp only [parseTimestamp, hts]
        rw [extractText_cons_neg _ _ (by simpa using h0)]
        simp [htn0, htb1]

/-- Claim C9 witness: the spec's example line `[03:10]lyrics` with the
modelled normalisation and capitalisation collaborators; the result is
`{time: "03:10", text: "Lyrics"}`. -/
theorem C9_time_and_text_witness :
    2 ≤ (tokenizeLine ("[03:10]lyrics")).length ∧
    (tokenizeLine ("[03:10]lyrics")).Chain' (fun x y => endsRB x ≠ endsRB y) ∧
    parseTimestamp mNormalize mCapitalize ("[03:10]lyrics") =
      ⟨some (stripTime ("[03:10]")), mCapitalize (mNormalize ("lyrics"))⟩ := by
  have hts : tokenizeLine ("[03:10]lyrics") = [("[03:10]"), ("lyrics")] := by decide
  have hch : (tokenizeLine ("[03:10]lyrics")).Chain' (fun x y => endsRB x ≠ endsRB y) := by
    rw [hts]
    exact List.chain'_cons.mpr ⟨by decide, List.chain'_singleton _⟩
  exact ⟨by decide, hch,
    C9_time_and_text mNormalize mCapitalize ("[03:10]lyrics") ("[03:10]") ("lyrics")
      (by decide) hch (by decide) (by decide)⟩

/-! ## Matcher claims -/

/-- Claim C1: for every candidate sequence and query, `search` returns the
first candidate in received order that satisfies the acceptance rule
(normalized album names equal after optional Han-script simplification of the
query album, or absolute duration difference below 1000 ms); even when a
later candidate also satisfies the rule, the earlier one is returned. -/
theorem C1_search_first_match (normalize : String → String)
    (containsHan : String → Bool) (toSimplified : String → String)
    (info : Info) (items : List Song) (i : ℕ) (hi : i < items.length)
    (hacc : accepts normalize containsHan toSimplified info (items.get ⟨i, hi⟩) = true)
    (hfirst : ∀ j (hj : j < i),
      accepts normalize containsHan toSimplified info
        (items.get ⟨j, Nat.lt_trans hj hi⟩) = false) :
    search normalize containsHan toSimplified info items =
      .ok (items.get ⟨i, hi⟩) := by
  induction items generalizing i with
  | nil => simp at hi
  | cons song rest ih =>
    cases i with
    | zero =>
      simp only [List.get] at hacc ⊢
      simp [search, hacc]
    | succ n =>
      have h0 : accepts normalize containsHan toSimplified info song = false :=
        hfirst 0 (Nat.succ_pos n)
      simp only [search, h0, Bool.false_eq_true, if_false, reduceIte]
      exact ih n (Nat.lt_of_succ_lt_succ hi) hacc
        (fun j hj => hfirst (j + 1) (Nat.succ_lt_succ hj))

/-- Claim C1 witness: the second candidate matches by duration, the first
matches by neither album nor duration, and the third also matches; the
second is returned. -/
theorem C1_search_first_match_witness :
    accepts mNormalize mContainsHan mToSimplified
      ⟨"t", "a", "al", 1000⟩ ⟨"z", 3, 1200, "d"⟩ = true ∧
    search mNormalize mContainsHan mToSimplified ⟨"t", "a", "al", 1000⟩
      [⟨"x", 1, 5000, "b"⟩, ⟨"y", 2, 1500, "c"⟩, ⟨"z", 3, 1200, "d"⟩] =
      .ok ⟨"y", 2, 1500, "c"⟩ :=
  ⟨by decide,
    C1_search_first_match mNormalize mContainsHan mToSimplified
      ⟨"t", "a", "al", 1000⟩
      [⟨"x", 1, 5000, "b"⟩, ⟨"y", 2, 1500, "c"⟩, ⟨"z", 3, 1200, "d"⟩]
      1 (by decide) (by decide) (by decide)⟩

/-- Claim C2: `search` fails with the not-found error exactly when the
candidate sequence is empty or no candidate satisfies the acceptance rule;
in every other case it succeeds with a candidate. -/
theorem C2_search_not_found (normalize : String → String)
    (containsHan : String → Bool) (toSimplified : String → String)
    (info : Info) (items : List Song) :
    (search normalize containsHan toSimplified info items =
        .error ("Cannot find track") ↔
      ∀ s ∈ items, accepts normalize containsHan toSimplified info s = false) ∧
    ((∃ s ∈ items, accepts normalize containsHan toSimplified info s = true) →
      ∃ r, search normalize containsHan toSimplified info items = .ok r) := by
  induction items with
  | nil => simp [search]
  | cons song rest ih =>
    by_cases h : accepts normalize containsHan toSimplified info song = true
    · constructor
      · simp [search, h]
      · intro _
        exact ⟨song, by simp [search, h]⟩
    · have hf : accepts normalize containsHan toSimplified info song = false := by
        simpa using h
      constructor
      · simp only [search, hf, Bool.false_eq_true, if_false, reduceIte]
        rw [ih.1]
        simp [hf]
      · intro hex
        rcases hex with ⟨s, hs, hacc⟩
        rcases List.mem_cons.mp hs with rfl | hmem
        · exact absurd hacc (by simp [hf])
        · obtain ⟨r, hr⟩ := ih.2 ⟨s, hmem, hacc⟩
          exact ⟨r, by simp [search, hf, hr]⟩

/-- Claim C2 witness: a sequence whose single candidate matches neither
criterion produces the not-found error. -/
theorem C2_search_not_found_witness :
    search mNormalize mContainsHan mToSimplified ⟨"t", "a", "al", 1000⟩
      [⟨"x", 1, 5000, "b"⟩] = .error ("Cannot find track") :=
  (C2_search_not_found mNormalize mContainsHan mToSimplified
    ⟨"t", "a", "al", 1000⟩ [⟨"x", 1, 5000, "b"⟩]).1.mpr (by decide)

/-! ## Extractor claims -/

/-- Claim C3: whenever the primary (`lrc`) block contains a line whose parsed
text equals the instrumental-notice sentinel, both `getSynced` and
`getUnsynced` return no data, regardless of how the other lines parsed. -/
theorem C3_sentinel_forces_none (norm cap : String → String) (p : RawPayload)
    (str : String) (hl : p.lrc = some str)
    (hsent : ((splitJsLines str).map jsTrim).any
      (fun line => (parseTimestamp norm cap line).text == sentinel) = true) :
    getSynced norm cap p = none ∧ getUnsynced norm cap p = none := by
  constructor
  · simp only [getSynced, hl]
    by_cases hstr : str = ""
    · simp [hstr]
    · simp [hstr, hsent]
  · simp only [getUnsynced, hl]
    by_cases hstr : str = ""
    · simp [hstr]
    · simp [hstr, hsent]

/-- Claim C3 witness: a block with one valid synced line and one sentinel
line yields no data in both modes. -/
theorem C3_sentinel_forces_none_witness :
    ((splitJsLines ("[00:10]Hello\n[00:20]纯音乐, 请欣赏")).map jsTrim).any
      (fun line => (parseTimestamp mNormalize mCapitalize line).text == sentinel) = true ∧
    getSynced mNormalize mCapitalize
      ⟨some ("[00:10]Hello\n[00:20]纯音乐, 请欣赏"), none, none⟩ = none ∧
    getUnsynced mNormalize mCapitalize
      ⟨some ("[00:10]Hello\n[00:20]纯音乐, 请欣赏"), none, none⟩ = none := by
  refine ⟨by decide, ?_, ?_⟩
  · exact (C3_sentinel_forces_none mNormalize mCapitalize
      ⟨some ("[00:10]Hello\n[00:20]纯音乐, 请欣赏"), none, none⟩
      ("[00:10]Hello\n[00:20]纯音乐, 请欣赏") rfl (by decide)).1
  · exact (C3_sentinel_forces_none mNormalize mCapitalize
      ⟨some ("[00:10]Hello\n[00:20]纯音乐, 请欣赏"), none, none⟩
      ("[00:10]Hello\n[00:20]纯音乐, 请欣赏") rfl (by decide)).2

theorem syncedLineOf_credit_none (norm cap : String → String) (line : String)
    (hc : (parseTimestamp norm cap line).text = "" ∨
      containCredits ((parseTimestamp norm cap line).text) = true) :
    syncedLineOf norm cap line = none := by
  rcases hc with hc | hc
  · simp only [syncedLineOf]
    split
    · rfl
    · simp [hc]
  · simp only [syncedLineOf]
    split
    · rfl
    · split
      · rfl
      · split <;> simp [hc]

theorem karaokeLineOf_credit_none (norm cap : String → String) (line : String)
    (hc : (parseTimestamp norm cap line).text = "" ∨
      containCredits ((parseTimestamp norm cap line).text) = true) :
    karaokeLineOf norm cap line = none := by
  rcases hc with hc | hc
  · simp only [karaokeLineOf]
    split
    · rfl
    · simp [hc]
  · simp only [karaokeLineOf]
    split
    · rfl
    · split
      · rfl
      · split <;> simp [hc]

theorem unsyncedLineOf_credit_none (norm cap : String → String) (line : String)
    (hc : (parseTimestamp norm cap line).text = "" ∨
      containCredits ((parseTimestamp norm cap line).text) = true) :
    unsyncedLineOf norm cap line = none := by
  rcases hc with hc | hc <;> simp [unsyncedLineOf, hc]

/-- Claim C6: for a block in which every non-empty line's parsed text matches
the credit-line filter — every line either parses to empty text (a blank
line, e.g. from a trailing newline) or to text the filter matches — each of
the four mode extractors that reads that block returns no data. -/
theorem C6_credit_block (norm cap : String → String) (p : RawPayload)
    (str : String)
    (hcred : ∀ line ∈ (splitJsLines str).map jsTrim,
      (parseTimestamp norm cap line).text = "" ∨
        containCredits ((parseTimestamp norm cap line).text) = true) :
    (p.lrc = some str → getSynced norm cap p = none ∧ getUnsynced norm cap p = none) ∧
    (p.klyric = some str → getKaraoke norm cap p = none) ∧
    (p.tlyric = some str → getTranslation norm cap p = none) := by
  have hsync : ((splitJsLines str).map jsTrim).filterMap (syncedLineOf norm cap) = [] :=
    List.filterMap_eq_nil_iff.mpr
      (fun line hline => syncedLineOf_credit_none norm cap line (hcred line hline))
  have hkar : ((splitJsLines str).map jsTrim).filterMap (karaokeLineOf norm cap) = [] :=
    List.filterMap_eq_nil_iff.mpr
      (fun line hline => karaokeLineOf_credit_none norm cap line (hcred line hline))
  have huns : ((splitJsLines str).map jsTrim).filterMap (unsyncedLineOf norm cap) = [] :=
    List.filterMap_eq_nil_iff.mpr
      (fun line hline => unsyncedLineOf_credit_none norm cap line (hcred line hline))
  refine ⟨fun hl => ⟨?_, ?_⟩, fun hl => ?_, fun hl => ?_⟩
  · simp only [getSynced, hl]
    by_cases hstr : str = ""
    · simp [hstr]
    · simp [hstr, hsync]
  · simp only [getUnsynced, hl]
    by_cases hstr : str = ""
    · simp [hstr]
    · simp [hstr, huns]
  · simp only [getKaraoke, hl]
    by_cases hstr : str = ""
    · simp [hstr]
    · simp [hstr, hkar]
  · simp only [getTranslation, hl]
    by_cases hstr : str = ""
    · simp [hstr]
    · simp [hstr, hsync]

/-- Claim C6 witness: a block holding one Chinese credit line, one English
credit line and a blank line produced by the trailing newline yields no data
in all four modes. -/
theorem C6_credit_block_witness :
    ((splitJsLines ("作词：Someone\nMixed by: Someone\n")).map jsTrim).all
      (fun line => decide ((parseTimestamp mNormalize mCapitalize line).text = "") ||
        containCredits ((parseTimestamp mNormalize mCapitalize line).text)) = true ∧
    getSynced mNormalize mCapitalize
      ⟨some ("作词：Someone\nMixed by: Someone\n"),
        some ("作词：Someone\nMixed by: Someone\n"),
        some ("作词：Someone\nMixed by: Someone\n")⟩ = none ∧
    getUnsynced mNormalize mCapitalize
      ⟨some ("作词：Someone\nMixed by: Someone\n"),
        some ("作词：Someone\nMixed by: Someone\n"),
        some ("作词：Someone\nMixed by: Someone\n")⟩ = none ∧
    getKaraoke mNormalize mCapitalize
      ⟨some ("作词：Someone\nMixed by: Someone\n"),
        some ("作词：Someone\nMixed by: Someone\n"),
        some ("作词：Someone\nMixed by: Someone\n")⟩ = none ∧
    getTranslation mNormalize mCapitalize
      ⟨some ("作词：Someone\nMixed by: Someone\n"),
        some ("作词：Someone\nMixed by: Someone\n"),
        some ("作词：Someone\nMixed by: Someone\n")⟩ = none := by
  have h := C6_credit_block mNormalize mCapitalize
    ⟨some ("作词：Someone\nMixed by: Someone\n"),
      some ("作词：Someone\nMixed by: Someone\n"),
      some ("作词：Someone\nMixed by: Someone\n")⟩
    ("作词：Someone\nMixed by: Someone\n") (by decide)
  exact ⟨by decide, (h.1 rfl).1, (h.1 rfl).2, h.2.1 rfl, h.2.2 rfl⟩

/-- Claim C7: on every payload each extractor returns either no data or a
non-empty list of lines; an empty list is never returned — a block whose
lines are all filtered out collapses to no data. -/
theorem C7_none_or_nonempty (norm cap : String → String) (p : RawPayload) :
    (getKaraoke norm cap p = none ∨
      ∃ l, getKaraoke norm cap p = some l ∧ l ≠ []) ∧
    (getSynced norm cap p = none ∨
      ∃ l, getSynced norm cap p = some l ∧ l ≠ []) ∧
    (getUnsynced norm cap p = none ∨
      ∃ l, getUnsynced norm cap p = some l ∧ l ≠ []) ∧
    (getTranslation norm cap p = none ∨
      ∃ l, getTranslation norm cap p = some l ∧ l ≠ []) := by
  refine ⟨?_, ?_, ?_, ?_⟩
  · cases hk : p.klyric with
    | none => left; simp [getKaraoke, hk]
    | some str =>
      by_cases hstr : str = ""
      · left; simp [getKaraoke, hk, hstr]
      · simp only [getKaraoke, hk]
        set xs := ((splitJsLines str).map jsTrim).filterMap (karaokeLineOf norm cap) with hxs
        by_cases he : xs.isEmpty = true
        · left; simp [hstr, he]
        · right
          refine ⟨xs, by simp [hstr, he], ?_⟩
          intro hnil
          rw [hnil] at he
          simp at he
  · cases hk : p.lrc with
    | none => left; simp [getSynced, hk]
    | some str =>
      by_cases hstr : str = ""
      · left; simp [getSynced, hk, hstr]
      · simp only [getSynced, hk]
        set xs := ((splitJsLines str).map jsTrim).filterMap (syncedLineOf norm cap) with hxs
        set b := ((splitJsLines str).map jsTrim).any
          (fun line => (parseTimestamp norm cap line).text == sentinel) with hb
        by_cases he : (xs.isEmpty || b) = true
        · left; simp [hstr, he]
        · right
          refine ⟨xs, by simp [hstr, he], ?_⟩
          intro hnil
          rw [hnil] at he
          simp at he
  · cases hk : p.lrc with
    | none => left; simp [getUnsynced, hk]
    | some str =>
      by_cases hstr : str = ""
      · left; simp [getUnsynced, hk, hstr]
      · simp only [getUnsynced, hk]
        set xs := ((splitJsLines str).map jsTrim).filterMap (unsyncedLineOf norm cap) with hxs
        set b := ((splitJsLines str).map jsTrim).any
          (fun line => (parseTimestamp norm cap line).text == sentinel) with hb
        by_cases he : (xs.isEmpty || b) = true
        · left; simp [hstr, he]
        · right
          refine ⟨xs, by simp [hstr, he], ?_⟩
          intro hnil
          rw [hnil] at he
          simp at he
  · cases hk : p.tlyric with
    | none => left; simp [getTranslation, hk]
    | some str =>
      by_cases hstr : str = ""
      · left; simp [getTranslation, hk, hstr]
      · simp only [getTranslation, hk]
        set xs := ((splitJsLines str).map jsTrim).filterMap (syncedLineOf norm cap) with hxs
        by_cases he : xs.isEmpty = true
        · left; simp [hstr, he]
        · right
          refine ⟨xs, by simp [hstr, he], ?_⟩
          intro hnil
          rw [hnil] at he
          simp at he
